import Mathlib

/-!
Verification of the gemini-client repository's rendering/layout core and
protocol plumbing, shallowly embedded in Lean 4.

The embedding follows the Python source:
* `colours.py`   — `Colour`, `ColouredString` (per-character colour spans,
  concatenation, slicing, raw-blind equality, ANSI serialization);
* `gem_browse.py` — `Page.render` (word wrap, line classification, link and
  title extraction, scroll remap), `Page.find_toc_lines`,
  `Page.handle_toc_selection`, `Browser.resolve_relative`,
  `Browser.resolve_link`;
* `gem_client.py` — response parsing and the body/status-class checks of
  `fetch_gem`.

Characters are modelled as `Char`, Python strings as `String` or `List Char`,
Python lists as `List`, `None`-able values as `Option`, and operations that can
raise as `Option`/`Except` returning functions.
-/

/-- A resolved colour: the ordered list of SGR style tokens
(`Colour._sgrs` in `colours.py`).  The empty list is `no_colour`. -/
abbrev Colour := List String

/-- The distinguished "no colour" value (`no_colour` in `colours.py`). -/
def noColour : Colour := []

/-- A `ColouredString`: one colour per character.  The Python class keeps two
parallel arrays `_s` and `_colours` with the invariant
`len(_s) == len(_colours)`; a list of pairs is the same data. -/
abbrev Styled := List (Char × Colour)

/-- The raw (colour-blind) character content, `ColouredString.raw`. -/
def rawChars (s : Styled) : List Char := s.map Prod.fst

/-- `ColouredString(s, ctx).apply_colour(col)`: every character of `s` gets
colour `col`.  With `col = noColour` this is also plain
`ColouredString(s, ctx)` construction. -/
def styledOf (s : String) (col : Colour) : Styled := s.data.map (fun c => (c, col))

/-- `ColouredString.__add__`: character and colour sequences appended. -/
def csAdd (a b : Styled) : Styled := a ++ b

/-- A Python slice `s[start:stop]` (for `0 ≤ start ≤ stop`), as used by
`ColouredString.__getitem__` with a slice argument: positional
sub-extraction preserving per-character colour. -/
def csSlice (s : Styled) (start stop : Nat) : Styled := (s.drop start).take (stop - start)

/-- `ColouredString.__eq__`: compares raw characters only, colours are
deliberately ignored (`self._s == converted._s` in `colours.py`). -/
def csEq (a b : Styled) : Bool := rawChars a == rawChars b

/-- CPython sequence indexing `l[i]` with an `int` index: a negative index is
offset by the length; an index that is still out of range raises `IndexError`
(modelled as `none`). -/
def pyIndex {α : Type} (l : List α) (i : Int) : Option α :=
  let j : Int := if i < 0 then i + (l.length : Int) else i
  if j < 0 then none else l.get? j.toNat

/-- `ColouredString.__getitem__` with an `int` index: returns the one-character
`ColouredString` at that position (`self._s[idx]` with `[self._colours[idx]]`),
or fails with `IndexError` (`none`). -/
def csIndex (s : Styled) (i : Int) : Option Styled :=
  (pyIndex s i).map (fun p => [p])

/-!  ANSI serialization, `ColouredString.__str__` with colours enabled. -/

/-- The escape character `'\x1b'`. -/
def escChar : Char := Char.ofNat 27

/-- A full reset, the string `'\x1b[m'`, as characters. -/
def fullReset : List Char := [escChar, Char.ofNat 91, 'm']

/-- `Colour.as_ansi_escape`: a full reset followed by one escape per SGR
token, in order (`'\x1b[m' + ''.join('\x1b[' + sgr + 'm' for sgr in _sgrs)`). -/
def ansiEscape (col : Colour) : List Char :=
  fullReset ++ (col.map (fun sgr => [escChar, Char.ofNat 91] ++ sgr.data ++ ['m'])).flatten

/-- The character-emitting loop of `ColouredString.__str__` (colours enabled):
walk characters carrying the previously emitted colour `prev`; on a colour
change emit the colour's escape then the character and update `prev`,
otherwise emit the character alone. -/
def strLoop (prev : Colour) : Styled → (List Char × Colour)
  | [] => ([], prev)
  | (c, col) :: rest =>
    if col ≠ prev then
      let (tail, last) := strLoop col rest
      (ansiEscape col ++ c :: tail, last)
    else
      let (tail, last) := strLoop prev rest
      (c :: tail, last)

/-- `ColouredString.__str__` with `do_colours` enabled: the walk above, then —
if the last emitted colour was not `no_colour` — the trailing emission
`ret.append(no_colour.as_ansi_escape()); ret.append('\x1b[m')` from the
source (note: that is `'\x1b[m'` twice). -/
def strColoured (cs : Styled) : List Char :=
  if (strLoop noColour cs).2 ≠ noColour then
    (strLoop noColour cs).1 ++ ansiEscape noColour ++ fullReset
  else
    (strLoop noColour cs).1

/-- The colour of the last character of a styled string (`noColour` when
empty).  After the emission loop the carried `prev` colour equals this. -/
def lastColour (cs : Styled) : Colour := (cs.map Prod.snd).getLastD noColour

/-- The claim's per-character emission rule, written positionally: a character
gets escapes exactly when its colour differs from the previous character's
colour (the colour "before" the first character being `noColour`). -/
def specEmit (prevCol : Colour) : Styled → List Char
  | [] => []
  | (c, col) :: rest =>
    (if col = prevCol then [c] else ansiEscape col ++ [c]) ++ specEmit col rest

/-- The serialization exactly as claim C2 words it: positional emission and
then exactly ONE trailing full reset iff the last emitted colour is not
`noColour`.  (Stated for comparison with the source's behaviour.) -/
def strClaimOrig (cs : Styled) : List Char :=
  specEmit noColour cs ++ (if lastColour cs ≠ noColour then fullReset else [])

/-- The amended serialization: positional emission and then exactly TWO
trailing full resets (the reset-only escape of `noColour`, then one more
reset) iff the last emitted colour is not `noColour`. -/
def strClaimAmended (cs : Styled) : List Char :=
  specEmit noColour cs ++ (if lastColour cs ≠ noColour then fullReset ++ fullReset else [])

/-! Helper lemmas about the serialization loop. -/

theorem strLoop_snd (prev : Colour) (cs : Styled) :
    (strLoop prev cs).2 = (cs.map Prod.snd).getLastD prev := by
  induction cs generalizing prev with
  | nil => rfl
  | cons p rest ih =>
    obtain ⟨c, col⟩ := p
    simp only [strLoop]
    by_cases h : col = prev
    · subst h
      simp only [ne_eq, not_true_eq_false, if_false, List.map_cons, List.getLastD_cons]
      rw [← ih col]
    · simp only [ne_eq, h, not_false_eq_true, if_true, List.map_cons, List.getLastD_cons]
      rw [← ih col]

theorem strLoop_fst (prev : Colour) (cs : Styled) :
    (strLoop prev cs).1 = specEmit prev cs := by
  induction cs generalizing prev with
  | nil => rfl
  | cons p rest ih =>
    obtain ⟨c, col⟩ := p
    simp only [strLoop, specEmit]
    by_cases h : col = prev
    · subst h
      simp only [ne_eq, not_true_eq_false, if_false, if_true, ih]
      rfl
    · simp only [ne_eq, h, not_false_eq_true, if_true, if_false, ih]
      simp

/-- **C2 (counterexample).**  For the one-character string `'a'` in colour
`["1"]` (bold), the source's serialization emits TWO trailing full resets —
`no_colour.as_ansi_escape()` is itself `'\x1b[m'` and the source appends a
further `'\x1b[m'` — whereas the claim asks for exactly one; the two outputs
differ. -/
theorem c2_counterexample :
    strColoured [('a', ["1"])]
      = fullReset ++ [escChar, Char.ofNat 91, '1', 'm'] ++ ['a'] ++ fullReset ++ fullReset
    ∧ strClaimOrig [('a', ["1"])]
      = fullReset ++ [escChar, Char.ofNat 91, '1', 'm'] ++ ['a'] ++ fullReset
    ∧ strColoured [('a', ["1"])] ≠ strClaimOrig [('a', ["1"])] := by
  refine ⟨by decide, by decide, by decide⟩

/-- **C2 (amended).**  For every `ColouredString` rendered with colours
enabled: escapes are emitted exactly at positions where the character's colour
differs from the previous character's colour (a full reset followed by one
escape per style token, in order, then the character); characters whose colour
equals the previous one are emitted bare; and after the last character exactly
TWO trailing full resets are emitted iff the last emitted colour was not
`no_colour`. -/
theorem c2_render_amended (cs : Styled) : strColoured cs = strClaimAmended cs := by
  unfold strColoured strClaimAmended lastColour
  rw [strLoop_fst noColour cs, strLoop_snd noColour cs]
  by_cases h : (cs.map Prod.snd).getLastD noColour = noColour
  · have h' : ¬ ((cs.map Prod.snd).getLastD noColour ≠ noColour) := by
      simp only [ne_eq, not_not]
      exact h
    rw [if_neg h', if_neg h', List.append_nil]
  · rw [if_pos h, if_pos h]
    simp [ansiEscape, noColour]

/-- **C9 (counterexample).**  Indexing the two-character string `"ab"` at
`-1` does not fail: Python's negative indexing returns the last character
(with its colour), contradicting the claim that every index outside
`[0, len)` raises an index error. -/
theorem c9_counterexample :
    csIndex [('a', noColour), ('b', noColour)] (-1) = some [('b', noColour)]
    ∧ ((-1 : Int) < 0 ∨ (2 : Int) ≤ (-1 : Int))
    ∧ csIndex [('a', noColour), ('b', noColour)] (-1) ≠ none := by
  refine ⟨by decide, Or.inl (by decide), by decide⟩

/-- **C9 (amended).**  `ColouredString.__getitem__` with an integer index `i`
fails with an index error iff `i < -len(s)` or `i ≥ len(s)`; for
`0 ≤ i < len(s)` it returns the single character at position `i` with its
original colour, and for `-len(s) ≤ i < 0` the character at position
`len(s) + i`. -/
theorem c9_index_amended (s : Styled) (i : Int) :
    ((i < -(s.length : Int) ∨ (s.length : Int) ≤ i) → csIndex s i = none)
    ∧ (0 ≤ i → i < (s.length : Int) → csIndex s i = (s.get? i.toNat).map (fun p => [p]))
    ∧ (-(s.length : Int) ≤ i → i < 0 →
        csIndex s i = (s.get? (i + (s.length : Int)).toNat).map (fun p => [p])) := by
  refine ⟨?_, ?_, ?_⟩
  · intro h
    rcases h with h | h
    · have hi : i < 0 := by omega
      simp only [csIndex, pyIndex]
      rw [if_pos hi, if_pos (show i + (s.length : Int) < 0 by omega)]
      rfl
    · have hi : ¬ i < 0 := by omega
      simp only [csIndex, pyIndex]
      rw [if_neg hi, if_neg hi]
      have hge : s.length ≤ i.toNat := by omega
      rw [List.get?_eq_none.mpr hge]
      rfl
  · intro h0 hlt
    have hi : ¬ i < 0 := by omega
    simp only [csIndex, pyIndex]
    rw [if_neg hi, if_neg hi]
  · intro hge hlt
    simp only [csIndex, pyIndex]
    rw [if_pos hlt, if_neg (show ¬ i + (s.length : Int) < 0 by omega)]

/-- Witness for `c9_index_amended` at `s = "ab"`, `i = 1` (in range) and
`i = 5` (out of range). -/
theorem c9_index_amended_witness :
    csIndex [('a', noColour), ('b', noColour)] 1 = some [('b', noColour)]
    ∧ csIndex [('a', noColour), ('b', noColour)] 5 = none := by
  constructor
  · have h := (c9_index_amended [('a', noColour), ('b', noColour)] 1).2.1
      (by decide) (by decide)
    rw [h]; rfl
  · exact (c9_index_amended [('a', noColour), ('b', noColour)] 5).1 (Or.inr (by decide))

/-- **C10 (confirmed).**  Concat/slice round trip: for all `ColouredString`s
`a`, `b`, the concatenation sliced to its first `len(a)` positions is
raw-equal to `a`, and sliced from position `len(a)` to the end is raw-equal
to `b` (equality being the source's colour-blind `__eq__`). -/
theorem c10_concat_slice (a b : Styled) :
    csEq (csSlice (csAdd a b) 0 a.length) a = true
    ∧ csEq (csSlice (csAdd a b) a.length (csAdd a b).length) b = true := by
  constructor
  · unfold csEq csSlice csAdd rawChars
    rw [List.drop_zero, Nat.sub_zero, List.take_left]
    exact beq_self_eq_true _
  · unfold csEq csSlice csAdd rawChars
    rw [List.drop_left, List.length_append,
      show a.length + b.length - a.length = b.length by omega, List.take_length]
    exact beq_self_eq_true _

/-! ## The layout engine (`Page.render` in `gem_browse.py`) -/

/-- Whitespace as the wrap tokenizer sees it: `c.raw() in ' \t'`. -/
def isSpaceTab (c : Char) : Bool := c = ' ' ∨ c = '\t'

/-- The backtick character (avoids a literal in source text). -/
def btick : Char := Char.ofNat 96

/-- A theme: resolves a colour name with an optional fallback name
(`ColourContext.get_colour`).  The concrete resolution reads an external
configuration file; the layout model is parameterized by an
already-resolved total theme, as the browser only renders after the theme
loads successfully. -/
abbrev Theme := String → Option String → Colour

/-- The tokenizer of `Page.render`: split a styled line into alternating
(leading-whitespace-run, word) pairs, preserving per-character colour.
In preformatted mode no character counts as whitespace, so the whole line
is one pair.  A final (possibly empty) pair is always appended. -/
def tokenizeLoop (pre : Bool) (pairs : List (Styled × Styled)) (wsAcc wordAcc : Styled) :
    Styled → List (Styled × Styled)
  | [] => pairs ++ [(wsAcc, wordAcc)]
  | (c, col) :: rest =>
    if isSpaceTab c ∧ pre = false then
      if wordAcc ≠ [] then
        tokenizeLoop pre (pairs ++ [(wsAcc, wordAcc)]) [(c, col)] [] rest
      else
        tokenizeLoop pre pairs (wsAcc ++ [(c, col)]) wordAcc rest
    else
      tokenizeLoop pre pairs wsAcc (wordAcc ++ [(c, col)]) rest

/-- Tokenize a whole processed line. -/
def tokenize (pre : Bool) (line : Styled) : List (Styled × Styled) :=
  tokenizeLoop pre [] [] [] line

/-- Place one wrapped line: `output_lines[-1] = this_line` if the current
last output line is raw-empty (the source compares with `== ''`, which is
the colour-blind equality), else `output_lines.append(this_line)`. -/
def placeLine (outs : List Styled) (l : Styled) : List Styled :=
  if rawChars (outs.getLastD []) = [] then outs.dropLast ++ [l] else outs ++ [l]

/-- The hard-split loop of `Page.render`: `while word:` take the first
`W-1` characters as a chunk, append a styled continuation marker `'\'`
when a remainder is left, place the chunk, and continue on the remainder.
The recursion is fuelled by the word length; for `W ≥ 2` (the source
guarantees `W ≥ 5` via `max(term_cols, 5)`) the fuel never runs out.
For `W ≤ 1` the Python loop would not terminate, which no reachable call
does. -/
def splitWordGo (w : Nat) (cont : Colour) : Nat → List Styled → Styled → List Styled
  | _, outs, [] => outs
  | 0, outs, _ => outs
  | fuel + 1, outs, word =>
    let thisLine := word.take (w - 1)
    let rest := word.drop (w - 1)
    let thisLine := if rest ≠ [] then thisLine ++ [(Char.ofNat 92, cont)] else thisLine
    splitWordGo w cont fuel (placeLine outs thisLine) rest

/-- The hard-split loop started with enough fuel. -/
def splitWord (w : Nat) (cont : Colour) (outs : List Styled) (word : Styled) : List Styled :=
  splitWordGo w cont word.length outs word

/-- Processing of one (whitespace, word) pair in `Page.render`: try
appending the pair to the current last output line; if the resulting width
is `≤ W`, commit it there; otherwise run the hard-split loop on the word
(the pair's whitespace is dropped). -/
def processPair (w : Nat) (cont : Colour) (outs : List Styled) (p : Styled × Styled) :
    List Styled :=
  let ifAppend := outs.getLastD [] ++ p.1 ++ p.2
  if ifAppend.length ≤ w then outs.dropLast ++ [ifAppend]
  else splitWord w cont outs p.2

/-- `re.match(r'^```(.*)$', line)`: the line starts with three backticks. -/
def isFence (line : String) : Bool := line.data.take 3 = [btick, btick, btick]

/-- Number of leading `'#'` characters (`len(m.group(1))` for
`^(#+)(.*)$`). -/
def leadingHashes (line : String) : Nat := (line.data.takeWhile (· = '#')).length

/-- `re.match(r'^=>[ \t]*([^\t ]+)[ \t]*(.*)$', line)`: after `=>`, skip
whitespace, take a non-empty non-whitespace URL token, skip whitespace,
and return (URL, trailing label text). -/
def linkMatch (line : String) : Option (String × String) :=
  match line.data with
  | '=' :: '>' :: r =>
    let r1 := r.dropWhile isSpaceTab
    let url := r1.takeWhile (fun c => ¬ isSpaceTab c)
    if url = [] then none
    else
      let r2 := (r1.drop url.length).dropWhile isSpaceTab
      some (String.mk url, String.mk r2)
  | _ => none

/-- `re.match(r'^( *)\[(\d+)\] (#+)(.*)$', line)` used for reference lines
of a table-of-contents page: leading spaces, a bracketed number, one space,
a run of `'#'`, and the rest. -/
def tocMatch (line : String) : Option (String × String × String × String) :=
  let ws := line.data.takeWhile (· = ' ')
  match line.data.drop ws.length with
  | '[' :: r1 =>
    let num := r1.takeWhile Char.isDigit
    if num = [] then none
    else
      match r1.drop num.length with
      | ']' :: ' ' :: r2 =>
        let hashes := r2.takeWhile (· = '#')
        if hashes = [] then none
        else some (String.mk ws, String.mk num, String.mk hashes,
          String.mk (r2.drop hashes.length))
      | _ => none
  | _ => none

/-- The per-line classification state of `Page.render`: the link table
collected so far, the page title (`self.name`), and the
`in_preformatted_mode` flag. -/
structure ClassState where
  links : List String
  name : Option String
  pre : Bool
deriving Repr, DecidableEq

/-- One step of `Page.render`'s line classification, in the source's
priority order: fence toggle, preformatted text, link line, TOC reference
line (only on a TOC page), heading (recording the first depth-1 heading's
trailing text as title), plain body text.  Returns the styled
`processed_line` and the updated classification state. -/
def classifyLine (theme : Theme) (isToc : Bool) (cs : ClassState) (line : String) :
    Styled × ClassState :=
  if isFence line then
    (styledOf line (theme "preformat_toggle" none), { cs with pre := !cs.pre })
  else if cs.pre then
    (styledOf line (theme "preformatted" none), cs)
  else
    match linkMatch line with
    | some (url, text) =>
      let links := cs.links ++ [url]
      let text := if text = "" then url else text
      (styledOf "=> [" (theme "link_syntax" none)
        ++ styledOf (toString links.length) (theme "link_number" none)
        ++ styledOf "]" (theme "link_syntax" none)
        ++ styledOf (": " ++ text) (theme "page_text" none),
       { cs with links := links })
    | none =>
      match (if isToc then tocMatch line else none) with
      | some (ws, num, hashes, text) =>
        (styledOf ws noColour
          ++ styledOf "[" (theme "link_syntax" none)
          ++ styledOf num (theme "link_number" none)
          ++ styledOf "]" (theme "link_syntax" none)
          ++ styledOf " " noColour
          ++ styledOf (hashes ++ text) (theme ("h" ++ toString hashes.length) (some "header")),
         cs)
      | none =>
        if line.data.take 1 = ['#'] then
          let level := leadingHashes line
          let name :=
            if level = 1 ∧ cs.name = none then some (String.mk (line.data.drop 1))
            else cs.name
          (styledOf line (theme ("h" ++ toString level) (some "header")),
           { cs with name := name })
        else
          (styledOf line (theme "page_text" none), cs)

/-- The full per-line loop state of `Page.render`: output lines so far
(never empty; it starts as `[empty]`), the source-line → first-display-line
map built so far, and the classification state. -/
structure LoopState where
  outs : List Styled
  i2o : List Nat
  cls : ClassState
deriving Repr, DecidableEq

/-- Processing of one source line in `Page.render`: record
`len(output_lines) - 1` in the source→display map, classify and style the
line, tokenize it (with the possibly-just-toggled preformatted flag),
word-wrap every pair, and append a blank output line as a paragraph
break. -/
def renderLine (theme : Theme) (isToc : Bool) (w : Nat) (st : LoopState) (line : String) :
    LoopState :=
  let pc := classifyLine theme isToc st.cls line
  let outs := (tokenize pc.2.pre pc.1).foldl
    (processPair w (theme "line_continuation" none)) st.outs
  ⟨outs ++ [[]], st.i2o ++ [st.outs.length - 1], pc.2⟩

/-- The final trim of `Page.render`:
`while not output_lines[-1]: output_lines.pop()`.  Pops trailing blank
output lines; if every line is blank the loop empties the list and the
next `output_lines[-1]` raises `IndexError`, modelled as `none`. -/
def trimRev : List Styled → Option (List Styled)
  | [] => none
  | l :: rest => if l = [] then trimRev rest else some (l :: rest)

/-- Trim trailing blank lines (see `trimRev`). -/
def trimTrailing (ls : List Styled) : Option (List Styled) :=
  (trimRev ls.reverse).map List.reverse

/-- The scroll-remap scan of `Page.render`:
`for i, x in enumerate(old_map): if x > p: break; idx = i` — the index of
the last entry `≤ p` before the first entry `> p` (0 if the very first
entry already exceeds `p`). -/
def remapGo (p : Nat) (acc i : Nat) : List Nat → Nat
  | [] => acc
  | x :: rest => if p < x then acc else remapGo p i (i + 1) rest

/-- The remapped old source-line index for scroll position `p`. -/
def remapIdx (oldMap : List Nat) (p : Nat) : Nat := remapGo p 0 0 oldMap

/-- The result of a layout: display lines, source→display map, 1-based
link table, detected title, and (remapped) scroll position. -/
structure RenderResult where
  lines : List Styled
  i2o : List Nat
  links : List String
  name : Option String
  scrollPos : Nat
deriving Repr, DecidableEq

/-- `Page.render`, as a function of the sanitized source lines, the
terminal column count, and the previous layout's
(`input_to_output_lines`, `scroll_pos`) when one exists.  The width is
`term_cols - PAGE_COL_SUBTRACT` floor-clamped to 5.  Returns `none` when
the source would raise an uncaught `IndexError` (see `trimTrailing`; the
scroll-remap index into the new map is likewise guarded, though it is in
range whenever the old map has one entry per source line). -/
def renderPage (theme : Theme) (isToc : Bool) (inputLines : List String) (termCols : Nat)
    (prevMap : Option (List Nat)) (prevScroll : Nat) : Option RenderResult :=
  let w := max (termCols - 5) 5
  let st := inputLines.foldl (renderLine theme isToc w) ⟨[[]], [], ⟨[], none, false⟩⟩
  (trimTrailing st.outs).bind (fun lines =>
    match prevMap with
    | none => some ⟨lines, st.i2o, st.cls.links, st.cls.name, 0⟩
    | some oldMap =>
      (st.i2o.get? (remapIdx oldMap prevScroll)).map
        (fun scroll => ⟨lines, st.i2o, st.cls.links, st.cls.name, scroll⟩))

/-- A concrete theme for closed evaluations: every colour name resolves to
the single SGR token equal to the name itself. -/
def themeTest : Theme := fun n _ => [n]

/-! ## Claim C1: word wrap -/

/-- The wrap step exactly as claim C1 words it: commit when the pair fits;
otherwise, when the word itself does not exceed `W`, place the word whole on
a new output line (on the current line when it is empty); only a word longer
than `W` is hard-split.  (Stated for comparison with the source's
behaviour, which differs.) -/
def processPairClaim (w : Nat) (cont : Colour) (outs : List Styled) (p : Styled × Styled) :
    List Styled :=
  let ifAppend := outs.getLastD [] ++ p.1 ++ p.2
  if ifAppend.length ≤ w then outs.dropLast ++ [ifAppend]
  else if p.2.length ≤ w then placeLine outs p.2
  else splitWord w cont outs p.2

/-- Split a word into chunks of `k` characters (the last chunk possibly
shorter), the declarative counterpart of the source's `while word:` loop
with chunk size `k = W - 1`.  (`k = 0`, unreachable from the source's
clamped width, yields the word unsplit.) -/
def chunksBy (k : Nat) (word : Styled) : List Styled :=
  if word = [] then []
  else if k = 0 ∨ word.length ≤ k then [word]
  else word.take k :: chunksBy k (word.drop k)
termination_by word.length
decreasing_by
  simp only [not_or, not_le] at *
  rw [List.length_drop]
  omega

/-- Append the styled continuation marker `'\'` to every chunk except the
last. -/
def addMarkers (cont : Colour) : List Styled → List Styled
  | [] => []
  | [c] => [c]
  | c :: rest => (c ++ [(Char.ofNat 92, cont)]) :: addMarkers cont rest

/-- The wrap step as amended: commit when the pair fits; otherwise
hard-split the word into `W-1`-character chunks — every word of length at
least `W` (so also of length exactly `W`) is split, and the pair's leading
whitespace is dropped — append a styled continuation marker to every chunk
but the last, and place the chunks in order, each replacing the current
output line when that is blank and starting a new output line otherwise. -/
def processPairAmended (w : Nat) (cont : Colour) (outs : List Styled) (p : Styled × Styled) :
    List Styled :=
  let ifAppend := outs.getLastD [] ++ p.1 ++ p.2
  if ifAppend.length ≤ w then outs.dropLast ++ [ifAppend]
  else (addMarkers cont (chunksBy (w - 1) p.2)).foldl placeLine outs

theorem chunksBy_ne_nil (k : Nat) (word : Styled) (h : word ≠ []) : chunksBy k word ≠ [] := by
  rw [chunksBy]
  rw [if_neg h]
  by_cases h2 : k = 0 ∨ word.length ≤ k
  · rw [if_pos h2]; simp
  · rw [if_neg h2]; simp

theorem addMarkers_cons (cont : Colour) (c : Styled) (cs : List Styled) (h : cs ≠ []) :
    addMarkers cont (c :: cs) = (c ++ [(Char.ofNat 92, cont)]) :: addMarkers cont cs := by
  cases cs with
  | nil => exact absurd rfl h
  | cons d ds => rfl

theorem splitWordGo_eq_chunks (w : Nat) (cont : Colour) :
    ∀ (fuel : Nat) (word : Styled) (outs : List Styled),
      word.length ≤ fuel → 2 ≤ w →
      splitWordGo w cont fuel outs word
        = (addMarkers cont (chunksBy (w - 1) word)).foldl placeLine outs := by
  intro fuel
  induction fuel with
  | zero =>
    intro word outs hf _
    have : word = [] := List.eq_nil_of_length_eq_zero (by omega)
    subst this
    rw [chunksBy, if_pos rfl]
    rfl
  | succ n ih =>
    intro word outs hf hw
    cases word with
    | nil =>
      rw [chunksBy, if_pos rfl]
      rfl
    | cons c cs =>
      rw [show splitWordGo w cont (n + 1) outs (c :: cs)
          = splitWordGo w cont n
              (placeLine outs
                (if (c :: cs).drop (w - 1) ≠ [] then
                  (c :: cs).take (w - 1) ++ [(Char.ofNat 92, cont)]
                else (c :: cs).take (w - 1)))
              ((c :: cs).drop (w - 1)) from rfl]
      by_cases hsmall : (c :: cs).length ≤ w - 1
      · have hdrop : (c :: cs).drop (w - 1) = [] := List.drop_eq_nil_of_le hsmall
        have htake : (c :: cs).take (w - 1) = c :: cs := List.take_of_length_le hsmall
        rw [hdrop, htake]
        simp only [ne_eq, not_true_eq_false, if_false]
        rw [show splitWordGo w cont n (placeLine outs (c :: cs)) [] = placeLine outs (c :: cs)
          from by cases n <;> rfl]
        rw [chunksBy, if_neg (by simp), if_pos (Or.inr hsmall)]
        rfl
      · push_neg at hsmall
        have hlen : (c :: cs).length = cs.length + 1 := rfl
        have hdrop : (c :: cs).drop (w - 1) ≠ [] := by
          intro hcon
          rw [List.drop_eq_nil_iff] at hcon
          omega
        rw [if_pos hdrop]
        have hrest : ((c :: cs).drop (w - 1)).length ≤ n := by
          rw [List.length_drop]
          omega
        rw [ih _ _ hrest hw]
        conv_rhs => rw [chunksBy]
        rw [if_neg (by simp), if_neg (by push_neg; exact ⟨by omega, by omega⟩)]
        rw [addMarkers_cons cont _ _ (chunksBy_ne_nil _ _ hdrop)]
        rfl

/-- **C1 (counterexample).**  At width `W = 5`, wrapping the pair
`(" ", "cdefg")` — a word of length exactly `W` — onto a current line
`"ab"`: the source hard-splits the word into a `W-1`-character chunk with a
continuation marker plus a one-character line, whereas the claim requires
the word to be placed whole on a new line; the two outputs differ. -/
theorem c1_counterexample :
    (styledOf "cdefg" ["page_text"]).length = 5
    ∧ processPair 5 ["line_continuation"] [styledOf "ab" ["page_text"]]
        (styledOf " " ["page_text"], styledOf "cdefg" ["page_text"])
      = [styledOf "ab" ["page_text"],
         styledOf "cdef" ["page_text"] ++ [(Char.ofNat 92, ["line_continuation"])],
         styledOf "g" ["page_text"]]
    ∧ processPairClaim 5 ["line_continuation"] [styledOf "ab" ["page_text"]]
        (styledOf " " ["page_text"], styledOf "cdefg" ["page_text"])
      = [styledOf "ab" ["page_text"], styledOf "cdefg" ["page_text"]]
    ∧ processPair 5 ["line_continuation"] [styledOf "ab" ["page_text"]]
        (styledOf " " ["page_text"], styledOf "cdefg" ["page_text"])
      ≠ processPairClaim 5 ["line_continuation"] [styledOf "ab" ["page_text"]]
        (styledOf " " ["page_text"], styledOf "cdefg" ["page_text"]) := by
  refine ⟨by decide, by decide, by decide, by decide⟩

/-- **C1 (amended).**  Word-wrap of a non-preformatted source line at
width `W ≥ 5`: the line is tokenized into (leading-whitespace-run, word)
pairs preserving per-character colour, and for each pair in order, if
appending the pair to the current output line gives width `≤ W` it is
committed there; otherwise the pair's whitespace is dropped and the word
is hard-split into `W-1`-character chunks — in particular a word of length
exactly `W` IS split, a word of length `≤ W-1` stays whole as the single
chunk — each chunk except the last followed by a styled continuation
marker, the first chunk replacing the current output line when that is
blank and starting a new output line otherwise, later chunks each on a new
line. -/
theorem c1_word_split_amended (w : Nat) (cont : Colour) (outs : List Styled)
    (pairs : List (Styled × Styled)) (hw : 5 ≤ w) :
    pairs.foldl (processPair w cont) outs = pairs.foldl (processPairAmended w cont) outs := by
  induction pairs generalizing outs with
  | nil => rfl
  | cons p rest ih =>
    rw [List.foldl_cons, List.foldl_cons, ih]
    congr 1
    unfold processPair processPairAmended splitWord
    by_cases h : (outs.getLastD [] ++ p.1 ++ p.2).length ≤ w
    · rw [if_pos h, if_pos h]
    · rw [if_neg h, if_neg h]
      exact splitWordGo_eq_chunks w cont p.2.length p.2 outs (le_refl _) (by omega)

/-- Witness for `c1_word_split_amended`: the counterexample line of C1 at
width 5, where both sides produce the same three output lines. -/
theorem c1_word_split_amended_witness :
    (5 : Nat) ≤ 5
    ∧ [(styledOf " " ["page_text"], styledOf "cdefg" ["page_text"])].foldl
        (processPair 5 ["line_continuation"]) [styledOf "ab" ["page_text"]]
      = [(styledOf " " ["page_text"], styledOf "cdefg" ["page_text"])].foldl
        (processPairAmended 5 ["line_continuation"]) [styledOf "ab" ["page_text"]] :=
  ⟨by decide,
   c1_word_split_amended 5 ["line_continuation"] [styledOf "ab" ["page_text"]]
     [(styledOf " " ["page_text"], styledOf "cdefg" ["page_text"])] (by decide)⟩

/-- **C5 (code bug).**  For a document all of whose lines produce only blank
output — here the two empty source lines of a body consisting of a single
newline — the final trimming loop `while not output_lines[-1]:
output_lines.pop()` pops every output line and then indexes the empty list,
an uncaught `IndexError`: the layout does not terminate normally and no
display line remains, contradicting the claimed totality and the
`scrollPosition ∈ [0, len(displayLines)-1]` invariant. -/
theorem c5_trim_crash :
    renderPage themeTest false ["", ""] 80 none 0 = none
    ∧ trimTrailing [[], [], []] = none :=
  ⟨by decide, by decide⟩

/-! ## Claim C4: title extraction -/

/-- The fence-flag transition of one source line: a line of three backticks
flips `in_preformatted_mode`. -/
def fenceStep (pre : Bool) (line : String) : Bool := if isFence line then !pre else pre

/-- The title contributed by a single source line under the classifier's
priority order: `some` of the text after the leading `'#'` when the line is
classified as a depth-1 heading (not a fence line, not inside a fenced
block, not a link line, not a TOC reference line on a TOC page), else
`none`. -/
def h1OfLine (isToc : Bool) (pre : Bool) (line : String) : Option String :=
  if isFence line then none
  else if pre then none
  else if (linkMatch line).isSome then none
  else if isToc ∧ (tocMatch line).isSome then none
  else if line.data.take 1 = ['#'] then
    if leadingHashes line = 1 then some (String.mk (line.data.drop 1)) else none
  else none

/-- The text after the `'#'` run of the first line classified as a depth-1
heading, threading the fence flag through the document. -/
def firstH1 (isToc : Bool) (pre : Bool) : List String → Option String
  | [] => none
  | l :: ls =>
    match h1OfLine isToc pre l with
    | some t => some t
    | none => firstH1 isToc (fenceStep pre l) ls

theorem classify_pre (theme : Theme) (isToc : Bool) (cs : ClassState) (line : String) :
    (classifyLine theme isToc cs line).2.pre = fenceStep cs.pre line := by
  unfold classifyLine fenceStep
  by_cases hf : isFence line
  · rw [if_pos hf, if_pos hf]
  · rw [if_neg hf, if_neg hf]
    by_cases hp : cs.pre
    · rw [if_pos hp]
    · rw [if_neg hp]
      cases hlm : linkMatch line with
      | some v => obtain ⟨url, text⟩ := v; rfl
      | none =>
        simp only
        cases htm : (if isToc then tocMatch line else none) with
        | some v => obtain ⟨ws, num, hashes, text⟩ := v; rfl
        | none =>
          simp only
          by_cases hh : line.data.take 1 = ['#']
          · rw [if_pos hh]
          · rw [if_neg hh]

theorem classify_name (theme : Theme) (isToc : Bool) (cs : ClassState) (line : String) :
    (classifyLine theme isToc cs line).2.name
      = match cs.name with
        | some n => some n
        | none => h1OfLine isToc cs.pre line := by
  unfold classifyLine h1OfLine
  by_cases hf : isFence line
  · rw [if_pos hf, if_pos hf]
    cases cs.name <;> rfl
  · rw [if_neg hf, if_neg hf]
    by_cases hp : cs.pre
    · rw [if_pos hp, if_pos hp]
      cases cs.name <;> rfl
    · rw [if_neg hp, if_neg hp]
      cases hlm : linkMatch line with
      | some v =>
        obtain ⟨url, text⟩ := v
        simp only [Option.isSome_some, if_true]
        cases cs.name <;> rfl
      | none =>
        simp only [Option.isSome_none, Bool.false_eq_true, if_false]
        cases htm : (if isToc then tocMatch line else none) with
        | some v =>
          obtain ⟨ws, num, hashes, text⟩ := v
          have : isToc ∧ (tocMatch line).isSome := by
            by_cases hT : isToc
            · rw [if_pos hT] at htm; exact ⟨hT, by rw [htm]; rfl⟩
            · rw [if_neg hT] at htm; exact absurd htm (by simp)
          rw [if_pos this]
          cases cs.name <;> rfl
        | none =>
          have : ¬ (isToc ∧ (tocMatch line).isSome) := by
            by_cases hT : isToc
            · rw [if_pos hT] at htm
              intro hc
              rw [htm] at hc
              exact absurd hc.2 (by simp)
            · intro hc; exact hT hc.1
          rw [if_neg this]
          simp only
          by_cases hh : line.data.take 1 = ['#']
          · rw [if_pos hh, if_pos hh]
            by_cases h1 : leadingHashes line = 1
            · cases hn : cs.name with
              | some n => simp [hn, h1]
              | none => simp [hn, h1]
            · cases hn : cs.name with
              | some n => simp [hn, h1]
              | none => simp [hn, h1]
          · rw [if_neg hh, if_neg hh]
            cases cs.name <;> rfl

theorem foldl_render_name (theme : Theme) (isToc : Bool) (w : Nat) :
    ∀ (ls : List String) (st : LoopState),
      ((ls.foldl (renderLine theme isToc w) st).cls).name
        = match st.cls.name with
          | some n => some n
          | none => firstH1 isToc st.cls.pre ls := by
  intro ls
  induction ls with
  | nil =>
    intro st
    rw [List.foldl_nil]
    cases hn : st.cls.name <;> rfl
  | cons l rest ih =>
    intro st
    rw [List.foldl_cons, ih]
    have hcls : (renderLine theme isToc w st l).cls = (classifyLine theme isToc st.cls l).2 := rfl
    rw [hcls, classify_name, classify_pre]
    have hfc : firstH1 isToc st.cls.pre (l :: rest)
        = match h1OfLine isToc st.cls.pre l with
          | some t => some t
          | none => firstH1 isToc (fenceStep st.cls.pre l) rest := rfl
    cases hn : st.cls.name with
    | some n => rfl
    | none =>
      rw [hfc]

/-- **C4 (amended).**  For every document, the laid-out page's title is the
text after the leading `'#'` of the first depth-1 heading line — everything
after the single `'#'`, including any separating whitespace — or absent when
no such heading exists. -/
theorem c4_title_amended (theme : Theme) (isToc : Bool) (lines : List String)
    (termCols : Nat) (prevMap : Option (List Nat)) (prevScroll : Nat) (res : RenderResult)
    (h : renderPage theme isToc lines termCols prevMap prevScroll = some res) :
    res.name = firstH1 isToc false lines := by
  have hname :
      ((lines.foldl (renderLine theme isToc (max (termCols - 5) 5))
        ⟨[[]], [], ⟨[], none, false⟩⟩).cls).name = firstH1 isToc false lines := by
    rw [foldl_render_name]
  cases prevMap with
  | none =>
    unfold renderPage at h
    rw [Option.bind_eq_some] at h
    obtain ⟨tl, _, hres⟩ := h
    simp only [Option.some_inj] at hres
    rw [← hres]
    exact hname
  | some oldMap =>
    unfold renderPage at h
    rw [Option.bind_eq_some] at h
    obtain ⟨tl, _, hres⟩ := h
    simp only [Option.map_eq_some'] at hres
    obtain ⟨scroll, _, hres⟩ := hres
    rw [← hres]
    exact hname

/-- **C4 (counterexample).**  A page built from body `"# Title\n=> /x link\n"`
laid out at width 40 has title `" Title"` — the heading regex captures
everything after the `'#'` run, including the separating space — not
`"Title"` as the claim's concrete instance states.  (Its links and the two
non-empty display lines are as claimed.) -/
theorem c4_counterexample :
    renderPage themeTest false ["# Title", "=> /x link", ""] 45 none 0
      = some ⟨[styledOf "# Title" ["h1"],
               styledOf "=> [" ["link_syntax"] ++ styledOf "1" ["link_number"]
                 ++ styledOf "]" ["link_syntax"] ++ styledOf ": link" ["page_text"]],
              [0, 1, 2], ["/x"], some " Title", 0⟩
    ∧ (some " Title" : Option String) ≠ some "Title" :=
  ⟨by decide, by decide⟩

/-- Witness for `c4_title_amended`: the one-line document `"# T"`, whose
render succeeds and whose title is `firstH1`'s value `" T"`. -/
theorem c4_title_amended_witness :
    renderPage themeTest false ["# T"] 80 none 0
      = some ⟨[styledOf "# T" ["h1"]], [0], [], some " T", 0⟩
    ∧ (some " T" : Option String) = firstH1 false false ["# T"] := by
  refine ⟨by decide, ?_⟩
  exact c4_title_amended themeTest false ["# T"] 80 none 0
    ⟨[styledOf "# T" ["h1"]], [0], [], some " T", 0⟩ (by decide)

/-! ## Claim C3: scroll remap on re-layout -/

theorem remapGo_shift (p : Nat) :
    ∀ (m : List Nat) (b k : Nat), remapGo p (b + k) (b + 1 + k) m = remapGo p b (b + 1) m + k := by
  intro m
  induction m with
  | nil => intro b k; rfl
  | cons x rest ih =>
    intro b k
    unfold remapGo
    by_cases h : p < x
    · rw [if_pos h, if_pos h]
    · rw [if_neg h, if_neg h]
      have h1 := ih (b + 1) k
      rw [show b + 1 + k + 1 = b + 1 + 1 + k by omega]
      exact h1

theorem remapGo_cons_shift (p : Nat) (m : List Nat) (hm : m ≠ []) (hle : m.getD 0 0 ≤ p) :
    remapGo p 0 1 m = remapGo p 0 0 m + 1 := by
  cases m with
  | nil => exact absurd rfl hm
  | cons y rest =>
    have hy : ¬ p < y := by
      have : y ≤ p := hle
      omega
    unfold remapGo
    rw [if_neg hy, if_neg hy]
    have := remapGo_shift p rest 0 1
    simpa using this

theorem remapIdx_greatest :
    ∀ (m : List Nat) (p i : Nat), List.Sorted (· ≤ ·) m →
      i < m.length → m.getD i 0 ≤ p →
      (i + 1 < m.length → p < m.getD (i + 1) 0) →
      remapIdx m p = i := by
  intro m
  induction m with
  | nil =>
    intro p i _ hi _ _
    exact absurd hi (by simp)
  | cons x rest ih =>
    intro p i hsort hi hle hnext
    rw [List.sorted_cons] at hsort
    obtain ⟨hx, hrest⟩ := hsort
    cases i with
    | zero =>
      have hxp : x ≤ p := hle
      unfold remapIdx remapGo
      rw [if_neg (by omega)]
      cases rest with
      | nil => rfl
      | cons y rs =>
        have hy : p < y := hnext (by simp)
        unfold remapGo
        rw [if_pos hy]
    | succ j =>
      have hjlen : j < rest.length := by
        have : j + 1 < (x :: rest).length := hi
        simpa using this
      have hjle : rest.getD j 0 ≤ p := hle
      have hxp : x ≤ p := by
        have hmem : rest.getD j 0 ∈ rest := by
          rw [List.getD_eq_getElem?_getD, List.getElem?_eq_getElem hjlen]
          exact List.getElem_mem _
        exact le_trans (hx _ hmem) hjle
      have hhead : rest.getD 0 0 ≤ p := by
        cases rest with
        | nil => exact absurd hjlen (by simp)
        | cons y rs =>
          cases j with
          | zero => exact hjle
          | succ j2 =>
            have hy : y ≤ (y :: rs).getD (j2 + 1) 0 := by
              rw [List.getD_eq_getElem?_getD, List.getElem?_eq_getElem hjlen]
              rw [List.sorted_cons] at hrest
              exact hrest.1 _ (List.getElem_mem _)
            exact le_trans hy hjle
      unfold remapIdx remapGo
      rw [if_neg (by omega)]
      rw [remapGo_cons_shift p rest (by intro hc; subst hc; exact absurd hjlen (by simp)) hhead]
      have : remapGo p 0 0 rest = j := by
        have hnext2 : j + 1 < rest.length → p < rest.getD (j + 1) 0 := by
          intro hlt
          have := hnext (by simpa using Nat.succ_lt_succ hlt)
          exact this
        exact ih p j hrest hjlen hjle hnext2
      rw [show remapGo p 0 0 rest = remapIdx rest p from rfl] at this
      rw [show remapGo p 0 0 rest = remapIdx rest p from rfl, this]

theorem foldl_render_i2o_length (theme : Theme) (isToc : Bool) (w : Nat) :
    ∀ (ls : List String) (st : LoopState),
      ((ls.foldl (renderLine theme isToc w) st).i2o).length = st.i2o.length + ls.length := by
  intro ls
  induction ls with
  | nil => intro st; simp
  | cons l rest ih =>
    intro st
    rw [List.foldl_cons, ih]
    have : (renderLine theme isToc w st l).i2o = st.i2o ++ [st.outs.length - 1] := rfl
    rw [this]
    simp
    omega

/-- **C3 (confirmed).**  Scroll remap on re-layout: whenever a page with a
previous `sourceLineToDisplayLine` map (non-decreasing, one entry per source
line) and scroll position `p` is re-laid out and `i` is the greatest
source-line index with `oldMap[i] ≤ p`, the new scroll position is the new
map's entry at `i`. -/
theorem c3_scroll_remap (theme : Theme) (isToc : Bool) (lines : List String)
    (termCols : Nat) (oldMap : List Nat) (p : Nat) (res : RenderResult) (i : Nat)
    (h : renderPage theme isToc lines termCols (some oldMap) p = some res)
    (hsorted : List.Sorted (· ≤ ·) oldMap)
    (hlen : oldMap.length = lines.length)
    (hi : i < oldMap.length) (hile : oldMap.getD i 0 ≤ p)
    (hgreat : ∀ j, j < oldMap.length → oldMap.getD j 0 ≤ p → j ≤ i) :
    res.scrollPos = res.i2o.getD i 0 := by
  have hnext : i + 1 < oldMap.length → p < oldMap.getD (i + 1) 0 := by
    intro h1
    by_contra hc
    push_neg at hc
    have := hgreat (i + 1) h1 hc
    omega
  have hremap : remapIdx oldMap p = i := remapIdx_greatest oldMap p i hsorted hi hile hnext
  unfold renderPage at h
  rw [Option.bind_eq_some] at h
  obtain ⟨tl, _, hres⟩ := h
  simp only [Option.map_eq_some'] at hres
  obtain ⟨scroll, hg, hres⟩ := hres
  rw [hremap] at hg
  rw [← hres]
  simp only
  rw [List.getD_eq_getElem?_getD, ← List.get?_eq_getElem?, hg]
  rfl

/-- Witness for `c3_scroll_remap`: the one-line document `["a"]` re-laid out
with previous map `[0]` and scroll position `0`; the greatest index is `0`
and the new scroll position is the new map's entry `0`. -/
theorem c3_scroll_remap_witness :
    renderPage themeTest false ["a"] 80 (some [0]) 0
      = some ⟨[[('a', ["page_text"])]], [0], [], none, 0⟩
    ∧ (⟨[[('a', ["page_text"])]], [0], [], none, 0⟩ : RenderResult).scrollPos
      = (⟨[[('a', ["page_text"])]], [0], [], none, 0⟩ : RenderResult).i2o.getD 0 0 := by
  refine ⟨by decide, ?_⟩
  exact c3_scroll_remap themeTest false ["a"] 80 [0] 0
    ⟨[[('a', ["page_text"])]], [0], [], none, 0⟩ 0 (by decide)
    (by decide) (by decide) (by decide) (by decide)
    (fun j hj _ => by simp at hj; omega)

/-! ## Claim C6: table-of-contents selection
(`Page.find_toc_lines`, `Page.handle_toc_selection`) -/

/-- The heading source-line indices collected by `Page.find_toc_lines`:
the positions (from a running index) of base-document lines that start
with `'#'`. -/
def headerPositions : Nat → List String → List Nat
  | _, [] => []
  | i, l :: rest => (if l.data.take 1 = ['#'] then [i] else []) ++ headerPositions (i + 1) rest

/-- The observable state that `Page.handle_toc_selection` may change: the
base page's scroll position, whether the base page is the browser's active
page, and the alert lines. -/
structure TocSelState where
  baseScroll : Nat
  activeIsBase : Bool
  alert : List String
deriving Repr, DecidableEq

/-- `Page.handle_toc_selection(num)` on a TOC page of a base document with
lines `baseLines` and source→display map `baseMap`: decrement the 1-based
selection, alert and change nothing else when it is out of range of the
collected heading positions, otherwise map the selected heading's source
line through `baseMap`, set the base page's scroll position there and make
the base page active.  (The two list indexings are written with `getD`;
they are in range whenever `baseMap` has one entry per base source line,
which `Page.render` guarantees.) -/
def handleTocSelection (baseLines : List String) (baseMap : List Nat) (st : TocSelState)
    (num : Nat) : TocSelState :=
  let positions := headerPositions 0 baseLines
  let n : Int := (num : Int) - 1
  if n < 0 ∨ (positions.length : Int) ≤ n then
    { st with alert := ["Invalid table of contents selection"] }
  else
    { st with baseScroll := baseMap.getD (positions.getD n.toNat 0) 0, activeIsBase := true }

/-- **C6 (confirmed).**  Selecting reference `k` on a TOC page: for
`1 ≤ k ≤` (number of heading lines) the base page's scroll position becomes
the base's display line of the `k`-th heading — the heading's source-line
index mapped through the base's `sourceLineToDisplayLine` — and the base
page becomes the active page; for `k` outside that range an alert is raised
and no page state changes. -/
theorem c6_toc_selection (baseLines : List String) (baseMap : List Nat) (st : TocSelState)
    (k : Nat) :
    (1 ≤ k → k ≤ (headerPositions 0 baseLines).length →
      handleTocSelection baseLines baseMap st k
        = { st with
            baseScroll := baseMap.getD ((headerPositions 0 baseLines).getD (k - 1) 0) 0,
            activeIsBase := true })
    ∧ (k = 0 ∨ (headerPositions 0 baseLines).length < k →
      handleTocSelection baseLines baseMap st k
        = { st with alert := ["Invalid table of contents selection"] }) := by
  constructor
  · intro h1 h2
    simp only [handleTocSelection]
    rw [if_neg (by push_neg; omega)]
    have ht : ((k : Int) - 1).toNat = k - 1 := by omega
    rw [ht]
  · intro h
    simp only [handleTocSelection]
    rw [if_pos (by omega)]

/-- Witness for `c6_toc_selection`: base document `["# a", "x", "## b"]`
(headings at source lines 0 and 2), map `[0, 2, 3]`, selection `k = 2`:
scroll becomes `baseMap[2] = 3` and the base page becomes active; and
selection `k = 7` only raises the alert. -/
theorem c6_toc_selection_witness :
    handleTocSelection ["# a", "x", "## b"] [0, 2, 3] ⟨5, false, ["old"]⟩ 2
      = ⟨3, true, ["old"]⟩
    ∧ handleTocSelection ["# a", "x", "## b"] [0, 2, 3] ⟨5, false, ["old"]⟩ 7
      = ⟨5, false, ["Invalid table of contents selection"]⟩ := by
  constructor
  · exact ((c6_toc_selection ["# a", "x", "## b"] [0, 2, 3] ⟨5, false, ["old"]⟩ 2).1
      (by decide) (by decide)).trans (by decide)
  · exact ((c6_toc_selection ["# a", "x", "## b"] [0, 2, 3] ⟨5, false, ["old"]⟩ 7).2
      (Or.inr (by decide))).trans (by decide)

/-! ## Claim C7: body presence vs status class (`fetch_gem` in
`gem_client.py`) -/

/-- A parsed response: status code, meta line, optional body
(`GeminiResponse` in `gem_client.py`; the body is kept as text). -/
structure GemResponse where
  status : Nat
  meta : String
  body : Option String
deriving Repr, DecidableEq

/-- `GeminiResponse.broad_status`: the tens digit, `status // 10`. -/
def broadStatus (r : GemResponse) : Nat := r.status / 10

/-- `full_response.split(b'\r\n', 1)`: the part before the first CRLF and,
when a CRLF exists, the remainder. -/
def splitCrlfGo (acc : List Char) : List Char → List Char × Option (List Char)
  | [] => (acc, none)
  | '\r' :: '\n' :: rest => (acc, some rest)
  | c :: rest => splitCrlfGo (acc ++ [c]) rest

/-- `re.match(r'^(\d\d) ?(.{0,1024})$', header)`: two digits, an optional
single space, then up to 1024 characters none of which is a newline (`$`
also matches just before one trailing newline, which is then not part of
the captured meta). -/
def headerMatch (h : List Char) : Option (Nat × String) :=
  match h with
  | d1 :: d2 :: rest =>
    if d1.isDigit ∧ d2.isDigit then
      let rest2 := match rest with | ' ' :: r => r | _ => rest
      let metaChars := if rest2.getLast? = some '\n' then rest2.dropLast else rest2
      if metaChars.length ≤ 1024 ∧ ¬ ('\n' ∈ metaChars) then
        some ((d1.toNat - 48) * 10 + (d2.toNat - 48), String.mk metaChars)
      else none
    else none
  | _ => none

/-- The response construction and validation of `fetch_gem` after the raw
bytes arrive: split off the status line, match it, default an empty meta to
`text/gemini; charset=utf-8`, take the remainder as body when non-empty,
and raise when a body is present with a non-success status class.  The
source's second check reads `if response is None and
response.broad_status() == 2`, which is always false (the variable is never
`None`), so a success-status response without a body is NOT rejected; it is
modelled faithfully as no check. -/
def parseGemResponse (full : String) : Except String GemResponse :=
  let hb := splitCrlfGo [] full.data
  match headerMatch hb.1 with
  | none => .error "Malformed status line"
  | some sm =>
    let meta0 := if sm.2 = "" then "text/gemini; charset=utf-8" else sm.2
    let body : Option String :=
      match hb.2 with
      | some r => if r ≠ [] then some (String.mk r) else none
      | none => none
    let resp : GemResponse := ⟨sm.1, meta0, body⟩
    if resp.body ≠ none ∧ broadStatus resp ≠ 2 then
      .error "Got body when didn't expect one"
    else
      .ok resp

/-- **C7 (code bug).**  A response whose raw content is the header-only
`"20 text/gemini\r\n"` parses to a success-class (`status // 10 = 2`)
response with no body, yet `fetch_gem` returns it instead of raising: the
intended guard compares the response object — never `None` — instead of its
body, so "body present iff success class" fails in the success-without-body
direction.  (The other direction does raise, as the last conjunct shows for
a status-51 response carrying a body.) -/
theorem c7_missing_body_accepted :
    parseGemResponse "20 text/gemini\r\n" = .ok ⟨20, "text/gemini", none⟩
    ∧ broadStatus ⟨20, "text/gemini", none⟩ = 2
    ∧ (⟨20, "text/gemini", none⟩ : GemResponse).body = none
    ∧ parseGemResponse "51 nope\r\nX" = .error "Got body when didn't expect one" :=
  ⟨rfl, rfl, rfl, rfl⟩

/-! ## Claim C8: relative URL resolution (`Browser.resolve_relative`,
`Browser.resolve_link`) -/

/-- The scheme, network location and path of a URL.  Models
`urllib.parse.urlparse`/`urlunparse` restricted to the
`scheme://host/path` shapes this code produces and consumes (no query,
params or fragment, which `resolve_relative` always passes as empty). -/
structure UrlParts where
  scheme : String
  netloc : String
  path : String
deriving Repr, DecidableEq

/-- Split `scheme "://" rest` at the first `"://"`. -/
def splitSchemeGo (acc : List Char) : List Char → Option (List Char × List Char)
  | ':' :: '/' :: '/' :: rest => some (acc, rest)
  | c :: rest => splitSchemeGo (acc ++ [c]) rest
  | [] => none

/-- Parse a URL of shape `scheme://netloc/path` into its parts (a string
without `"://"` parses as a bare path with empty netloc, which
`resolve_relative` rejects). -/
def parseUrl (s : String) : UrlParts :=
  match splitSchemeGo [] s.data with
  | some sr =>
    let netloc := sr.2.takeWhile (· ≠ '/')
    ⟨String.mk sr.1, String.mk netloc, String.mk (sr.2.drop netloc.length)⟩
  | none => ⟨"", "", s⟩

/-- `urllib.parse.urlunparse([scheme, netloc, path, '', '', ''])` for the
shapes produced here (path empty or starting with `'/'`). -/
def urlunparse3 (scheme netloc path : String) : String :=
  (if scheme = "" then "" else scheme ++ ":") ++ "//" ++ netloc ++ path

/-- Python `str.split(sep)` for a one-character separator. -/
def splitCharGo (sep : Char) (acc : List Char) : List Char → List (List Char)
  | [] => [acc]
  | c :: rest =>
    if c = sep then acc :: splitCharGo sep [] rest else splitCharGo sep (acc ++ [c]) rest

/-- Python `str.split(sep)` (see `splitCharGo`). -/
def splitChar (sep : Char) (l : List Char) : List (List Char) := splitCharGo sep [] l

/-- `'/'.join(components)`. -/
def joinSlash : List (List Char) → List Char
  | [] => []
  | [x] => x
  | x :: xs => x ++ '/' :: joinSlash xs

/-- `Browser.resolve_relative(old_url, path, allow_relative)`: fail
(with an alert) when the current URL has no netloc; a path starting with
`'/'` replaces the whole path; otherwise, when relative resolution is
allowed, resolve the path's segments against the current path's directory
(drop the last segment and empty segments): `.` is a no-op, `..` pops one
segment, an empty segment is skipped, any other segment is appended; a
trailing `'/'` of the input is preserved. -/
def resolveRelative (oldUrl : String) (path : String) (allowRelative : Bool) : Option String :=
  if (parseUrl oldUrl).netloc = "" then none
  else if path.data.take 1 = ['/'] then
    some (urlunparse3 (parseUrl oldUrl).scheme (parseUrl oldUrl).netloc path)
  else if allowRelative = false then none
  else
    let prev := ((splitChar '/' (parseUrl oldUrl).path.data).dropLast).filter (fun c => c ≠ [])
    let comps := (splitChar '/' path.data).foldl
      (fun acc c =>
        if c = ['.'] then acc
        else if c = ['.', '.'] then acc.dropLast
        else if c = [] then acc
        else acc ++ [c]) prev
    some (urlunparse3 (parseUrl oldUrl).scheme (parseUrl oldUrl).netloc
      (String.mk ('/' :: (joinSlash comps ++ (if path.data.getLast? = some '/' then ['/'] else [])))))

/-- `Browser.looks_like_url`: `re.match(r'^[a-zA-Z+.-]*:?//', link)` — a
(possibly empty) run of scheme characters, an optional colon, then `"//"`.
The character class excludes `':'` and `'/'`, so the greedy run needs no
backtracking. -/
def looksLikeUrl (link : String) : Bool :=
  let p := link.data.dropWhile (fun c => c.isAlpha ∨ c = '+' ∨ c = '.' ∨ c = '-')
  let p2 := match p with | ':' :: r => r | _ => p
  p2.take 2 = ['/', '/']

/-- Python `int(s)` on a trimmed decimal string: an optional sign and a
non-empty digit run.  (Python also tolerates surrounding whitespace and
underscore separators, which none of the inputs considered here use.) -/
def pyIntOfString (s : String) : Option Int :=
  let sd : Int × List Char :=
    match s.data with
    | '+' :: r => (1, r)
    | '-' :: r => (-1, r)
    | _ => (1, s.data)
  if sd.2 ≠ [] ∧ sd.2.all Char.isDigit then
    some (sd.1 * ((sd.2.foldl (fun acc c => acc * 10 + (c.toNat - 48)) 0 : Nat) : Int))
  else none

/-- `Browser.resolve_link(link, from_user=False)` (given a current page):
an absolute-looking URL is returned as is (a bare `//…` gains the `gemini:`
scheme); a numeric link is NOT consulted against the link table (both
numeric branches require `from_user`); `.` resolves to the current URL;
anything else resolves relative to the current URL with relative paths
allowed. -/
def resolveLinkNonUser (pageUrl : String) (link : String) : Option String :=
  if looksLikeUrl link then
    some (if link.data.take 2 = ['/', '/'] then "gemini:" ++ link else link)
  else if link = "." then some pageUrl
  else resolveRelative pageUrl link true

/-- `Browser.resolve_link(link, from_user=True)` (given a current page):
an absolute-looking URL is returned as is; a numeric link in range of the
1-based link table is resolved recursively as a non-user link, out of range
it is an error; `.` resolves to the current URL; any other link resolves
relative to the current URL with relative paths disallowed
(`not from_user`). -/
def resolveLinkUser (pageUrl : String) (pageLinks : List String) (link : String) :
    Option String :=
  if looksLikeUrl link then
    some (if link.data.take 2 = ['/', '/'] then "gemini:" ++ link else link)
  else
    match pyIntOfString link with
    | some n =>
      if 0 ≤ n - 1 ∧ n - 1 < (pageLinks.length : Int) then
        resolveLinkNonUser pageUrl (pageLinks.getD (n - 1).toNat "")
      else none
    | none =>
      if link = "." then some pageUrl
      else resolveRelative pageUrl link false

/-- **C8 (confirmed).**  Relative URL resolution: from current URL
`gemini://h/a/b/c`, `../d` resolves to `gemini://h/a/d`, `/x` to
`gemini://h/x`, and `.` to the current URL unchanged; `.` segments are
no-ops, `..` pops one segment, other segments append to the current path's
directory, a trailing `'/'` of the input is preserved, and in general a
path with a leading `'/'` replaces the whole path of any current URL with a
non-empty netloc. -/
theorem c8_resolution :
    resolveRelative "gemini://h/a/b/c" "../d" true = some "gemini://h/a/d"
    ∧ resolveRelative "gemini://h/a/b/c" "/x" true = some "gemini://h/x"
    ∧ resolveLinkUser "gemini://h/a/b/c" [] "." = some "gemini://h/a/b/c"
    ∧ resolveRelative "gemini://h/a/b/c" "./d" true = some "gemini://h/a/b/d"
    ∧ resolveRelative "gemini://h/a/b/c" "d/e/" true = some "gemini://h/a/b/d/e/"
    ∧ (∀ cur pth, (parseUrl cur).netloc ≠ "" → pth.data.take 1 = ['/'] →
        resolveRelative cur pth true
          = some (urlunparse3 (parseUrl cur).scheme (parseUrl cur).netloc pth)) := by
  refine ⟨by decide, by decide, by decide, by decide, by decide, ?_⟩
  intro cur pth hn hp
  simp only [resolveRelative]
  rw [if_neg hn, if_pos hp]

/-- Witness for `c8_resolution`'s general leading-`'/'` clause at
`gemini://x/p` with input `/z`. -/
theorem c8_resolution_witness :
    (parseUrl "gemini://x/p").netloc ≠ ""
    ∧ ("/z" : String).data.take 1 = ['/']
    ∧ resolveRelative "gemini://x/p" "/z" true
      = some (urlunparse3 (parseUrl "gemini://x/p").scheme (parseUrl "gemini://x/p").netloc
          "/z") := by
  refine ⟨by decide, by decide, ?_⟩
  exact c8_resolution.2.2.2.2.2 "gemini://x/p" "/z" (by decide) (by decide)
